import Mathlib

/-!
Verification of `SOUI::AnimationSet` (src/SOUI/include/animator/AnimationSet.h),
a C++ port of Android's `android.view.animation.AnimationSet`.

The header under verification only contains the `AnimationSet` class; the base
class `Animation` and the value type `Transformation` live in other files of
the repository that are not part of this excerpt.  Children of an
`AnimationSet` are therefore modelled abstractly (a record of the timing data
and per-timestamp reports the `AnimationSet` code queries), and
`Transformation` is modelled from the spec as a 2D affine transform plus an
alpha, composed by matrix multiplication and alpha multiplication.

C++ `long` values (durations, offsets, times) are modelled as `Int`;
the `mFlags` bitmask as `Nat` with the mask constants of the source.
-/

namespace SOUI

/-- Modelled from the spec: `Transformation` is "a value representing a 2D
affine transform plus alpha, combinable via compose" (its class is outside
this excerpt).  The affine part is the matrix `[[a, b, tx], [c, d, ty]]`. -/
structure Transformation where
  a : Int
  b : Int
  c : Int
  d : Int
  tx : Int
  ty : Int
  alpha : Int
  deriving Repr, DecidableEq

namespace Transformation

/-- Modelled from the spec: `clear()` resets a transformation to the identity
(the compose identity: identity matrix, alpha 1). -/
def cleared : Transformation :=
  { a := 1, b := 0, c := 0, d := 1, tx := 0, ty := 0, alpha := 1 }

/-- Modelled from the spec: `compose` is "a value-level combination
(equivalent to matrix multiplication plus alpha multiplication)";
`t.compose u` multiplies the affine matrices (t's matrix times u's matrix)
and the alphas. -/
def compose (t u : Transformation) : Transformation :=
  { a := t.a * u.a + t.b * u.c
    b := t.a * u.b + t.b * u.d
    c := t.c * u.a + t.d * u.c
    d := t.c * u.b + t.d * u.d
    tx := t.a * u.tx + t.b * u.ty + t.tx
    ty := t.c * u.tx + t.d * u.ty + t.ty
    alpha := t.alpha * u.alpha }

end Transformation

/-- Modelled from the spec: a child `Animation` (base class outside this
excerpt).  `mStartOffset`, `mDuration`, `mStartTime` are its timing fields
(`getStartOffset`/`getDuration`/`getStartTime` return them); `mStarted` and
`mEnded` are the cached state flags that `Animation::reset` clears.
`getTransformation ct sc` gives the (still-animating?, transformation) pair
the child reports for timestamp `ct` and scale factor `sc` (the child is
handed a cleared scratch transformation, so the pair is a function of the
arguments); `hasStartedAt ct` / `hasEndedAt ct` are the values its
`hasStarted()` / `hasEnded()` report at that timestamp. -/
structure Child where
  mStartOffset : Int
  mDuration : Int
  mStartTime : Int
  mStarted : Bool
  mEnded : Bool
  getTransformation : Int → Int → Bool × Transformation
  hasStartedAt : Int → Bool
  hasEndedAt : Int → Bool

namespace Child

/-- `Animation::getStartOffset` returns the start offset field. -/
def getStartOffset (c : Child) : Int := c.mStartOffset

/-- `Animation::getDuration` returns the duration field. -/
def getDuration (c : Child) : Int := c.mDuration

/-- `Animation::getStartTime` returns the start time field. -/
def getStartTime (c : Child) : Int := c.mStartTime

/-- Modelled from the spec: `Animation::setStartTime` stores the given start
time in the animation. -/
def setStartTime (c : Child) (t : Int) : Child := { c with mStartTime := t }

/-- Modelled from the spec: `Animation::reset` clears the animation's cached
started/ended state. -/
def reset (c : Child) : Child := { c with mStarted := false, mEnded := false }

/-- A default child, used only as the out-of-range default of list lookups. -/
def default : Child :=
  { mStartOffset := 0, mDuration := 0, mStartTime := 0,
    mStarted := false, mEnded := false,
    getTransformation := fun _ _ => (false, Transformation.cleared),
    hasStartedAt := fun _ => false, hasEndedAt := fun _ => false }

end Child

/-- `smax` of souicoll.h on longs. -/
def smax (x y : Int) : Int := if x > y then x else y

/-- `smin` of souicoll.h on longs. -/
def smin (x y : Int) : Int := if x < y then x else y

/-- The property-mask enum of `AnimationSet`. -/
def PROPERTY_FILL_AFTER_MASK : Nat := 0x1
def PROPERTY_FILL_BEFORE_MASK : Nat := 0x2
def PROPERTY_REPEAT_MODE_MASK : Nat := 0x4
def PROPERTY_START_OFFSET_MASK : Nat := 0x8
def PROPERTY_SHARE_INTERPOLATOR_MASK : Nat := 0x10
def PROPERTY_DURATION_MASK : Nat := 0x20

/-- The state of an `AnimationSet`: its own fields (`mFlags`, `mAnimations`,
`mLastEnd`, dirty/alpha cache) plus the inherited `Animation` fields the
methods of this class read or write (`mStartOffset`, `mDuration`,
`mStartTime`, `mStarted`, `mEnded`, scale factor, listener presence).
The listener itself is modelled by which callbacks fire (`Event`s). -/
structure AnimationSet where
  mFlags : Nat
  mDirty : Bool
  mHasAlpha : Bool
  mAnimations : List Child
  mLastEnd : Int
  mStartOffset : Int
  mDuration : Int
  mStartTime : Int
  mStarted : Bool
  mEnded : Bool
  mScaleFactor : Int
  hasListener : Bool

/-- The listener callbacks `getTransformation` can fire. -/
inductive Event where
  | animStart
  | animEnd
  deriving Repr, DecidableEq

namespace AnimationSet

/-- `setFlag(mask, value)`: `mFlags |= mask` or `mFlags &= ~mask`
(`Nat.ldiff` is bitwise and-not). -/
def setFlag (st : AnimationSet) (mask : Nat) (value : Bool) : AnimationSet :=
  if value then { st with mFlags := st.mFlags ||| mask }
  else { st with mFlags := Nat.ldiff st.mFlags mask }

/-- The constructor `AnimationSet(shareInterpolator)`: base-class defaults,
then `setFlag(PROPERTY_SHARE_INTERPOLATOR_MASK, shareInterpolator)` and
`init()` (which sets `mStartTime = 0`).  `mLastEnd` is left uninitialized by
the C++ constructor; it is modelled as 0 (no claim depends on its value
before the first `setDuration`/`addAnimation`, each of which assigns it). -/
def mk0 (shareInterpolator : Bool) (hasListener : Bool) : AnimationSet :=
  let base : AnimationSet :=
    { mFlags := 0, mDirty := false, mHasAlpha := false, mAnimations := [],
      mLastEnd := 0, mStartOffset := 0, mDuration := 0, mStartTime := 0,
      mStarted := false, mEnded := false, mScaleFactor := 1,
      hasListener := hasListener }
  let st := base.setFlag PROPERTY_SHARE_INTERPOLATOR_MASK shareInterpolator
  { st with mStartTime := 0 }

/-- `setStartOffset(startOffset)`: sets the start-offset flag and stores the
offset (`Animation::setStartOffset`, modelled from the spec as storing the
field). -/
def setStartOffset (st : AnimationSet) (startOffset : Int) : AnimationSet :=
  let st := { st with mFlags := st.mFlags ||| PROPERTY_START_OFFSET_MASK }
  { st with mStartOffset := startOffset }

/-- `setDuration(durationMillis)`: sets the duration flag, stores the duration
(`Animation::setDuration`, modelled from the spec as storing the field), and
recomputes `mLastEnd = mStartOffset + mDuration`. -/
def setDuration (st : AnimationSet) (durationMillis : Int) : AnimationSet :=
  let st := { st with mFlags := st.mFlags ||| PROPERTY_DURATION_MASK }
  let st := { st with mDuration := durationMillis }
  { st with mLastEnd := st.mStartOffset + st.mDuration }

/-- Whether the duration property has been explicitly set:
`(mFlags & PROPERTY_DURATION_MASK) == PROPERTY_DURATION_MASK`. -/
def durationSet (st : AnimationSet) : Bool :=
  (st.mFlags &&& PROPERTY_DURATION_MASK) == PROPERTY_DURATION_MASK

/-- `addAnimation(a)`: append the child, then update the timing fields —
if the duration was explicitly set, `mLastEnd = mStartOffset + mDuration`;
otherwise the first child seeds `mDuration = a.startOffset + a.duration` and
`mLastEnd = mStartOffset + mDuration`, and later children do
`mLastEnd = smax(mLastEnd, a.startOffset + a.duration)`,
`mDuration = mLastEnd - mStartOffset`.  Finally `mDirty = true`. -/
def addAnimation (st : AnimationSet) (a : Child) : AnimationSet :=
  let st := { st with mAnimations := st.mAnimations ++ [a] }
  let st :=
    if st.durationSet then
      { st with mLastEnd := st.mStartOffset + st.mDuration }
    else
      if st.mAnimations.length == 1 then
        let st := { st with mDuration := a.getStartOffset + a.getDuration }
        { st with mLastEnd := st.mStartOffset + st.mDuration }
      else
        let st := { st with mLastEnd := smax st.mLastEnd (a.getStartOffset + a.getDuration) }
        { st with mDuration := st.mLastEnd - st.mStartOffset }
  { st with mDirty := true }

/-- `setStartTime(startTimeMillis)`: store the start time on the set
(`Animation::setStartTime`) and on every child, in order. -/
def setStartTime (st : AnimationSet) (startTimeMillis : Int) : AnimationSet :=
  let st := { st with mStartTime := startTimeMillis }
  { st with mAnimations := st.mAnimations.map (fun a => a.setStartTime startTimeMillis) }

/-- `getStartTime()`: `startTime = 100000`, then `smin` with each child's
start time, iterating forward over the children. -/
def getStartTime (st : AnimationSet) : Int :=
  st.mAnimations.foldl (fun startTime a => smin startTime a.getStartTime) 100000

/-- `getDuration()`: if the duration flag is set, return `mDuration`;
otherwise fold `smax` of the children's own `getDuration()` over an initial
0, iterating forward over the children. -/
def getDuration (st : AnimationSet) : Int :=
  if st.durationSet then st.mDuration
  else st.mAnimations.foldl (fun duration a => smax duration a.getDuration) 0

/-- `reset()`: `Animation::reset()` (modelled from the spec: clears the set's
own cached started/ended state) followed by `restoreChildrenStartOffset()`,
whose entire body is commented out in this version (a no-op).  The children
are not touched. -/
def reset (st : AnimationSet) : AnimationSet :=
  { st with mStarted := false, mEnded := false }

/-- The `for (int i = count - 1; i >= 0; --i)` loop of `getTransformation`,
processing index `n - 1` first and counting down to index 0, threading the
accumulator `(more, started, ended, t)` exactly as the loop body does:
`more = a.getTransformation(currentTime, temp, scale) || more`,
`t.compose(temp)`, `started = started || a.hasStarted()`,
`ended = a.hasEnded() && ended`. -/
def transLoop (children : List Child) (currentTime scale : Int) :
    Nat → Bool × Bool × Bool × Transformation → Bool × Bool × Bool × Transformation
  | 0, acc => acc
  | i + 1, (more, started, ended, t) =>
    let a := children.getD i Child.default
    let r := a.getTransformation currentTime scale
    transLoop children currentTime scale i
      (r.1 || more, started || a.hasStartedAt currentTime,
       a.hasEndedAt currentTime && ended, t.compose r.2)

/-- The result of a `getTransformation` call: the returned boolean `more`,
the output transformation `t`, the listener callbacks fired (in order), and
the state of the set after the call. -/
structure GTResult where
  more : Bool
  t : Transformation
  events : List Event
  state : AnimationSet

/-- `getTransformation(currentTime, t)`: clear `t`, run the reverse loop over
the children, then fire `onAnimationStart` if `started && !mStarted` (setting
`mStarted`), and fire `onAnimationEnd` if `ended != mEnded` (updating
`mEnded`).  Callbacks fire only when a listener is installed
(`mListener != NULL`); the flag updates happen regardless. -/
def getTransformation (st : AnimationSet) (currentTime : Int) : GTResult :=
  let count := st.mAnimations.length
  let acc := transLoop st.mAnimations currentTime st.mScaleFactor count
    (false, false, true, Transformation.cleared)
  let more := acc.1
  let started := acc.2.1
  let ended := acc.2.2.1
  let t := acc.2.2.2
  let ev1 : List Event :=
    if started && !st.mStarted then
      (if st.hasListener then [Event.animStart] else [])
    else []
  let st1 := if started && !st.mStarted then { st with mStarted := true } else st
  let ev2 : List Event :=
    if ended != st1.mEnded then
      (if st1.hasListener then [Event.animEnd] else [])
    else []
  let st2 := if ended != st1.mEnded then { st1 with mEnded := ended } else st1
  { more := more, t := t, events := ev1 ++ ev2, state := st2 }

/-- A sequence of `getTransformation` calls on the same set (no intervening
reset): the list of event lists fired by each call, threading the state. -/
def runSeq (st : AnimationSet) : List Int → List (List Event)
  | [] => []
  | ct :: cts =>
    let r := st.getTransformation ct
    r.events :: runSeq r.state cts

/-- The aggregated `started` value a `getTransformation` call computes over
children `cs` at timestamp `ct`: true iff some child's `hasStarted()`
reports true. -/
def aggStarted (cs : List Child) (ct : Int) : Bool :=
  cs.any (fun a => a.hasStartedAt ct)

/-- The aggregated `ended` value a `getTransformation` call computes over
children `cs` at timestamp `ct`: true iff every child's `hasEnded()`
reports true. -/
def aggEnded (cs : List Child) (ct : Int) : Bool :=
  cs.all (fun a => a.hasEndedAt ct)

/-- The end time a child contributes to the set's timing:
`a.getStartOffset() + a.getDuration()`. -/
def childEnd (c : Child) : Int := c.getStartOffset + c.getDuration

/-- Add a whole list of children by successive `addAnimation` calls. -/
def addAll (st : AnimationSet) (cs : List Child) : AnimationSet :=
  cs.foldl addAnimation st

end AnimationSet

/-- A sample child animation with the given start offset, duration and start
time, used to evaluate the model on concrete inputs. -/
def testChild (so d ts : Int) : Child :=
  { mStartOffset := so, mDuration := d, mStartTime := ts,
    mStarted := false, mEnded := false,
    getTransformation := fun _ _ => (false, Transformation.cleared),
    hasStartedAt := fun _ => false, hasEndedAt := fun _ => false }

/-- A sample child animation that reports started from time `startAt` on,
ended from time `endAt` on, and still-animating strictly before `endAt`. -/
def timedChild (startAt endAt : Int) : Child :=
  { mStartOffset := 0, mDuration := endAt - startAt, mStartTime := startAt,
    mStarted := false, mEnded := false,
    getTransformation := fun t _ => (decide (t < endAt), Transformation.cleared),
    hasStartedAt := fun t => decide (startAt ≤ t),
    hasEndedAt := fun t => decide (endAt ≤ t) }

/-- A sample child animation whose cached started flag is set. -/
def startedChild : Child :=
  { testChild 0 10 0 with mStarted := true }

namespace AnimationSet

/-- What the countdown loop of `getTransformation` computes on the first `n`
children: `more` is the disjunction of the children's returned booleans,
`started` the disjunction of their `hasStarted()` reports, `ended` the
conjunction of their `hasEnded()` reports, and the accumulated
transformation is the left fold of `compose` over the children's
transformations taken in reverse order. -/
theorem transLoop_eq (children : List Child) (ct sc : Int) :
    ∀ (n : Nat), n ≤ children.length → ∀ (m s e : Bool) (t : Transformation),
    transLoop children ct sc n (m, s, e, t) =
      ((children.take n).any (fun a => (a.getTransformation ct sc).1) || m,
       s || (children.take n).any (fun a => a.hasStartedAt ct),
       ((children.take n).all (fun a => a.hasEndedAt ct)) && e,
       List.foldl Transformation.compose t
         (((children.take n).reverse).map (fun a => (a.getTransformation ct sc).2))) := by
  intro n
  induction n with
  | zero => intro _ m s e t; simp [transLoop]
  | succ n ih =>
    intro h m s e t
    have hn : n < children.length := h
    have htake : children.take (n + 1) = children.take n ++ [children[n]] := by
      rw [List.take_succ, List.getElem?_eq_getElem hn]
      rfl
    have hgetD : children.getD n Child.default = children[n] :=
      List.getD_eq_getElem children Child.default hn
    show transLoop children ct sc n _ = _
    rw [hgetD, ih (Nat.le_of_lt hn), htake]
    simp only [List.any_append, List.all_append, List.reverse_append,
      List.map_append, List.foldl_append, List.any_cons, List.any_nil,
      List.all_cons, List.all_nil, List.reverse_cons, List.reverse_nil,
      List.nil_append, List.map_cons, List.map_nil, List.foldl_cons,
      List.foldl_nil, Bool.or_false, Bool.and_true]
    refine Prod.ext ?_ (Prod.ext ?_ (Prod.ext ?_ rfl)) <;>
      simp [Bool.or_assoc, Bool.or_comm, Bool.or_left_comm, Bool.and_assoc]

/-- The countdown loop over all the children, started from the initial
accumulator `(false, false, true, cleared)` of `getTransformation`. -/
theorem transLoop_full (children : List Child) (ct sc : Int) :
    transLoop children ct sc children.length (false, false, true, Transformation.cleared) =
      (children.any (fun a => (a.getTransformation ct sc).1),
       children.any (fun a => a.hasStartedAt ct),
       children.all (fun a => a.hasEndedAt ct),
       List.foldl Transformation.compose Transformation.cleared
         (children.reverse.map (fun a => (a.getTransformation ct sc).2))) := by
  rw [transLoop_eq children ct sc children.length (Nat.le_refl _)]
  simp

/-- The boolean `getTransformation` returns is the disjunction over the
children of the boolean each child's `getTransformation` returns. -/
theorem getTransformation_more (st : AnimationSet) (ct : Int) :
    (st.getTransformation ct).more =
      st.mAnimations.any (fun a => (a.getTransformation ct st.mScaleFactor).1) := by
  simp [getTransformation, transLoop_full]

/-- The output transformation of `getTransformation` is the left fold of
`compose` over the children's transformations in reverse insertion order,
starting from the cleared (identity) transformation. -/
theorem getTransformation_t (st : AnimationSet) (ct : Int) :
    (st.getTransformation ct).t =
      List.foldl Transformation.compose Transformation.cleared
        (st.mAnimations.reverse.map (fun a => (a.getTransformation ct st.mScaleFactor).2)) := by
  simp [getTransformation, transLoop_full]

/-- `getTransformation` does not change the child list. -/
theorem getTransformation_state_mAnimations (st : AnimationSet) (ct : Int) :
    (st.getTransformation ct).state.mAnimations = st.mAnimations := by
  simp only [getTransformation]
  split <;> split <;> rfl

/-- `getTransformation` does not change whether a listener is installed. -/
theorem getTransformation_state_hasListener (st : AnimationSet) (ct : Int) :
    (st.getTransformation ct).state.hasListener = st.hasListener := by
  simp only [getTransformation]
  split <;> split <;> rfl

/-- `getTransformation` does not change the scale factor. -/
theorem getTransformation_state_mScaleFactor (st : AnimationSet) (ct : Int) :
    (st.getTransformation ct).state.mScaleFactor = st.mScaleFactor := by
  simp only [getTransformation]
  split <;> split <;> rfl

/-- After a `getTransformation` call the cached started flag is the old flag
or-ed with the aggregated `started` value of the call. -/
theorem getTransformation_state_mStarted (st : AnimationSet) (ct : Int) :
    (st.getTransformation ct).state.mStarted = (st.mStarted || aggStarted st.mAnimations ct) := by
  simp only [getTransformation, transLoop_full, aggStarted]
  cases hs : st.mAnimations.any (fun a => a.hasStartedAt ct) <;>
    cases hm : st.mStarted <;> simp [hs, hm] <;> split <;> simp_all

/-- After a `getTransformation` call the cached ended flag equals the
aggregated `ended` value of the call (it is updated on a change and already
equal otherwise). -/
theorem getTransformation_state_mEnded (st : AnimationSet) (ct : Int) :
    (st.getTransformation ct).state.mEnded = aggEnded st.mAnimations ct := by
  simp only [getTransformation, transLoop_full, aggEnded]
  cases he : st.mAnimations.all (fun a => a.hasEndedAt ct) <;>
    cases hE : st.mEnded <;> split <;> split <;> simp_all

/-- The start callback fires in a `getTransformation` call iff a listener is
installed, some child reports started, and the cached started flag was
false. -/
theorem mem_events_start (st : AnimationSet) (ct : Int) :
    Event.animStart ∈ (st.getTransformation ct).events ↔
      (st.hasListener = true ∧ aggStarted st.mAnimations ct = true ∧ st.mStarted = false) := by
  simp only [getTransformation, transLoop_full, aggStarted]
  cases hl : st.hasListener <;>
    cases hs : st.mAnimations.any (fun a => a.hasStartedAt ct) <;>
    cases hm : st.mStarted <;>
    cases he : st.mAnimations.all (fun a => a.hasEndedAt ct) <;>
    cases hE : st.mEnded <;> simp_all

/-- The end callback fires in a `getTransformation` call iff a listener is
installed and the aggregated `ended` value differs from the cached ended
flag. -/
theorem mem_events_end (st : AnimationSet) (ct : Int) :
    Event.animEnd ∈ (st.getTransformation ct).events ↔
      (st.hasListener = true ∧ aggEnded st.mAnimations ct ≠ st.mEnded) := by
  simp only [getTransformation, transLoop_full, aggEnded]
  cases hl : st.hasListener <;>
    cases hs : st.mAnimations.any (fun a => a.hasStartedAt ct) <;>
    cases hm : st.mStarted <;>
    cases he : st.mAnimations.all (fun a => a.hasEndedAt ct) <;>
    cases hE : st.mEnded <;> simp_all

end AnimationSet

/-- `smax` is the maximum. -/
theorem smax_eq_max (x y : Int) : smax x y = max x y := by
  rw [smax, max_def]
  split <;> split <;> omega

/-- `smin` is the minimum. -/
theorem smin_eq_min (x y : Int) : smin x y = min x y := by
  rw [smin, min_def]
  split <;> split <;> omega

namespace AnimationSet

/-- `List.any` is invariant under permutations of the list. -/
theorem any_perm {α : Type} {l1 l2 : List α} (p : α → Bool) (h : l1.Perm l2) :
    l1.any p = l2.any p := by
  refine Bool.eq_iff_iff.mpr ?_
  simp only [List.any_eq_true]
  exact ⟨fun ⟨x, hx, hp⟩ => ⟨x, h.mem_iff.mp hx, hp⟩,
    fun ⟨x, hx, hp⟩ => ⟨x, h.mem_iff.mpr hx, hp⟩⟩

/-- `List.all` is invariant under permutations of the list. -/
theorem all_perm {α : Type} {l1 l2 : List α} (p : α → Bool) (h : l1.Perm l2) :
    l1.all p = l2.all p := by
  refine Bool.eq_iff_iff.mpr ?_
  simp only [List.all_eq_true]
  exact ⟨fun hall x hx => hall x (h.mem_iff.mpr hx), fun hall x hx => hall x (h.mem_iff.mp hx)⟩

end AnimationSet

namespace AnimationSet

/-- C2: for every timestamp and every list of children, `getTransformation`
iterates the children in reverse insertion order and composes each child's
transformation into the output, so the final output transformation equals
the left fold of `compose`, starting from the cleared (identity)
transformation, over the children's individual transformations taken from
the last added to the first added. -/
theorem C2_getTransformation_reverse_fold (st : AnimationSet) (ct : Int) :
    (st.getTransformation ct).t =
      List.foldl Transformation.compose Transformation.cleared
        ((st.mAnimations.reverse).map (fun a => (a.getTransformation ct st.mScaleFactor).2)) := by
  simp [getTransformation, transLoop_full]

/-- C4: the boolean returned by `getTransformation` is true iff at least one
child reports still-animating at the timestamp; the computed `ended` value
(observable as the cached ended flag after the call) is true iff every child
reports ended, vacuously true for an empty set; and both aggregations are
invariant under permuting the children. -/
theorem C4_more_ended_aggregation (st : AnimationSet) (ct : Int) :
    ((st.getTransformation ct).more = true ↔
      ∃ a ∈ st.mAnimations, (a.getTransformation ct st.mScaleFactor).1 = true)
    ∧ ((st.getTransformation ct).state.mEnded = true ↔
      ∀ a ∈ st.mAnimations, a.hasEndedAt ct = true)
    ∧ (st.mAnimations = [] → (st.getTransformation ct).state.mEnded = true)
    ∧ (∀ l : List Child, st.mAnimations.Perm l →
        (({ st with mAnimations := l } : AnimationSet).getTransformation ct).more =
          (st.getTransformation ct).more
        ∧ (({ st with mAnimations := l } : AnimationSet).getTransformation ct).state.mEnded =
          (st.getTransformation ct).state.mEnded) := by
  refine ⟨?_, ?_, ?_, ?_⟩
  · rw [getTransformation_more]
    simp [List.any_eq_true]
  · rw [getTransformation_state_mEnded]
    simp [aggEnded, List.all_eq_true]
  · intro h
    rw [getTransformation_state_mEnded, h]
    rfl
  · intro l hperm
    constructor
    · rw [getTransformation_more, getTransformation_more]
      exact any_perm _ hperm.symm
    · rw [getTransformation_state_mEnded, getTransformation_state_mEnded]
      exact all_perm _ hperm.symm

/-- C9: `getDuration()` returns the explicitly set override duration when the
duration flag is set, and otherwise the maximum over the children of the
child's own `getDuration()` (0 for an empty set); in the latter case the
result involves neither the children's start offsets nor the set's start
offset (changing them all leaves the result unchanged). -/
theorem C9_getDuration_override_or_max (st : AnimationSet) (x : Int) (f : Child → Int) :
    st.getDuration =
      (if st.durationSet then st.mDuration
       else (st.mAnimations.map Child.getDuration).foldl max 0)
    ∧ getDuration { st with
        mStartOffset := x,
        mAnimations := st.mAnimations.map (fun c => { c with mStartOffset := f c }) } =
      st.getDuration := by
  constructor
  · rw [getDuration]
    split
    · rfl
    · rw [List.foldl_map]
      simp [smax_eq_max, Child.getDuration]
  · rw [getDuration, getDuration]
    have hflag : ({ st with
        mStartOffset := x,
        mAnimations := st.mAnimations.map (fun c => { c with mStartOffset := f c }) } :
          AnimationSet).durationSet = st.durationSet := rfl
    rw [hflag]
    split
    · rfl
    · rw [List.foldl_map]
      rfl

/-- `addAnimation` never changes the flag word. -/
theorem addAnimation_mFlags (st : AnimationSet) (a : Child) :
    (st.addAnimation a).mFlags = st.mFlags := by
  simp only [addAnimation]
  split
  · rfl
  · split <;> rfl

/-- `addAnimation` never changes the set's own start offset. -/
theorem addAnimation_mStartOffset (st : AnimationSet) (a : Child) :
    (st.addAnimation a).mStartOffset = st.mStartOffset := by
  simp only [addAnimation]
  split
  · rfl
  · split <;> rfl

/-- `addAnimation` appends the child to the list. -/
theorem addAnimation_mAnimations (st : AnimationSet) (a : Child) :
    (st.addAnimation a).mAnimations = st.mAnimations ++ [a] := by
  simp only [addAnimation]
  split
  · rfl
  · split <;> rfl

/-- `addAll st (c :: cs)` adds `c` first. -/
theorem addAll_cons (st : AnimationSet) (c : Child) (cs : List Child) :
    addAll st (c :: cs) = addAll (st.addAnimation c) cs := rfl

/-- `addAll` never changes the flag word. -/
theorem addAll_mFlags (cs : List Child) :
    ∀ st : AnimationSet, (addAll st cs).mFlags = st.mFlags := by
  induction cs with
  | nil => intro st; rfl
  | cons c cs ih =>
    intro st
    rw [addAll_cons, ih, addAnimation_mFlags]

/-- `addAll` never changes the set's own start offset. -/
theorem addAll_mStartOffset (cs : List Child) :
    ∀ st : AnimationSet, (addAll st cs).mStartOffset = st.mStartOffset := by
  induction cs with
  | nil => intro st; rfl
  | cons c cs ih =>
    intro st
    rw [addAll_cons, ih, addAnimation_mStartOffset]

/-- `addAll` appends the children to the list. -/
theorem addAll_mAnimations (cs : List Child) :
    ∀ st : AnimationSet, (addAll st cs).mAnimations = st.mAnimations ++ cs := by
  induction cs with
  | nil => intro st; simp [addAll]
  | cons c cs ih =>
    intro st
    rw [addAll_cons, ih, addAnimation_mAnimations]
    simp

/-- `addAll` never changes the duration-override flag. -/
theorem addAll_durationSet (cs : List Child) (st : AnimationSet) :
    (addAll st cs).durationSet = st.durationSet := by
  simp only [durationSet, addAll_mFlags]

/-- The constructor leaves the duration-override flag clear. -/
theorem mk0_durationSet (share listen : Bool) : (mk0 share listen).durationSet = false := by
  cases share <;> simp [mk0, setFlag, durationSet, PROPERTY_DURATION_MASK,
    PROPERTY_SHARE_INTERPOLATOR_MASK, Nat.ldiff, Nat.bitwise_zero_left]

/-- The constructor starts with no children. -/
theorem mk0_mAnimations (share listen : Bool) : (mk0 share listen).mAnimations = [] := by
  cases share <;> rfl

/-- The constructor starts with start offset 0. -/
theorem mk0_mStartOffset (share listen : Bool) : (mk0 share listen).mStartOffset = 0 := by
  cases share <;> rfl

/-- What `addAnimation` does when the duration was explicitly set:
append the child and recompute `mLastEnd = mStartOffset + mDuration`. -/
theorem addAnimation_of_durationSet (st : AnimationSet) (a : Child)
    (h : st.durationSet = true) :
    st.addAnimation a = { st with
      mAnimations := st.mAnimations ++ [a],
      mLastEnd := st.mStartOffset + st.mDuration,
      mDirty := true } := by
  simp only [addAnimation]
  rw [if_pos]
  exact h

/-- What `addAnimation` does on the first child when the duration was not
explicitly set: seed `mDuration = a.startOffset + a.duration` and
`mLastEnd = mStartOffset + mDuration`. -/
theorem addAnimation_first (st : AnimationSet) (a : Child)
    (hf : st.durationSet = false) (hemp : st.mAnimations = []) :
    st.addAnimation a = { st with
      mAnimations := [a],
      mDuration := childEnd a,
      mLastEnd := st.mStartOffset + childEnd a,
      mDirty := true } := by
  simp only [addAnimation, childEnd]
  rw [if_neg, if_pos] <;> simp [hemp, hf, durationSet] at hf ⊢
  exact hf

/-- What `addAnimation` does on a later child when the duration was not
explicitly set: `mLastEnd = smax(mLastEnd, a.startOffset + a.duration)` and
`mDuration = mLastEnd - mStartOffset`. -/
theorem addAnimation_notFirst (st : AnimationSet) (a : Child)
    (hf : st.durationSet = false) (hne : st.mAnimations ≠ []) :
    st.addAnimation a = { st with
      mAnimations := st.mAnimations ++ [a],
      mLastEnd := smax st.mLastEnd (childEnd a),
      mDuration := smax st.mLastEnd (childEnd a) - st.mStartOffset,
      mDirty := true } := by
  obtain ⟨hd, tl, hEmp⟩ := List.exists_cons_of_ne_nil hne
  simp only [addAnimation, childEnd]
  rw [if_neg, if_neg] <;> simp [hEmp, hf, durationSet] at hf ⊢
  exact hf

end AnimationSet

namespace AnimationSet

/-- C1 (amended): for every `AnimationSet` built by `addAnimation` calls on a
freshly constructed set, with no duration override, `getDuration()` returns
the maximum over all children of the child's own duration (0 for no
children); it does not involve the children's start offsets or the set's
start offset. -/
theorem C1_getDuration_built_sets (share listen : Bool) (cs : List Child) :
    (addAll (mk0 share listen) cs).getDuration = (cs.map Child.getDuration).foldl max 0 := by
  rw [getDuration, addAll_durationSet, mk0_durationSet]
  simp only [Bool.false_eq_true, if_false]
  rw [addAll_mAnimations, mk0_mAnimations, List.nil_append, List.foldl_map]
  simp [smax_eq_max, Child.getDuration]

/-- C1 counterexample: one child with start offset 5 and duration 10 added to
a fresh set (set start offset 0).  The claim predicts
`getDuration() = (5 + 10) - 0 = 15`; the code returns 10, the child's bare
duration. -/
theorem C1_counterexample :
    ((mk0 true true).addAnimation (testChild 5 10 0)).getDuration = 10
    ∧ (((mk0 true true).addAnimation (testChild 5 10 0)).mAnimations.map childEnd) = [15]
    ∧ ((mk0 true true).addAnimation (testChild 5 10 0)).mStartOffset = 0
    ∧ (10 : Int) ≠ 15 - 0 := by
  refine ⟨rfl, rfl, rfl, by decide⟩

/-- The timing invariant `addAnimation` maintains over later children when
the duration is not overridden and the set's start offset is 0. -/
theorem addAll_timing (cs : List Child) :
    ∀ st : AnimationSet, st.durationSet = false → st.mStartOffset = 0 →
      st.mAnimations ≠ [] → st.mLastEnd = st.mDuration →
      (addAll st cs).mDuration = (cs.map childEnd).foldl max st.mDuration
      ∧ (addAll st cs).mLastEnd = (addAll st cs).mDuration := by
  induction cs with
  | nil => intro st hf hS hne hL; exact ⟨rfl, hL⟩
  | cons c cs ih =>
    intro st hf hS hne hL
    have hstep := addAnimation_notFirst st c hf hne
    have hf' : (st.addAnimation c).durationSet = false := by rw [hstep]; exact hf
    have hS' : (st.addAnimation c).mStartOffset = 0 := by rw [hstep]; exact hS
    have hne' : (st.addAnimation c).mAnimations ≠ [] := by rw [hstep]; simp
    have hDur : (st.addAnimation c).mDuration = max st.mDuration (childEnd c) := by
      rw [hstep]
      show smax st.mLastEnd (childEnd c) - st.mStartOffset = _
      rw [hS, Int.sub_zero, hL, smax_eq_max]
    have hL' : (st.addAnimation c).mLastEnd = (st.addAnimation c).mDuration := by
      rw [hstep]
      show smax st.mLastEnd (childEnd c) = smax st.mLastEnd (childEnd c) - st.mStartOffset
      rw [hS, Int.sub_zero]
    have hrec := ih (st.addAnimation c) hf' hS' hne' hL'
    rw [addAll_cons]
    refine ⟨?_, hrec.2⟩
    rw [hrec.1, hDur]
    simp

/-- C3 (amended): for every `AnimationSet` built by `addAnimation` calls on a
freshly constructed set (so its own start offset is 0) with no duration
override, after every `addAnimation` call the duration field equals
`lastEnd - startOffset` where `lastEnd` (also the stored `mLastEnd`) is the
maximum over children of (child startOffset + child duration).  When the
set's start offset is nonzero the code breaks this relation (see the
counterexample). -/
theorem C3_invariant_fresh_sets (share listen : Bool) (c0 : Child) (cs : List Child) :
    (addAll (mk0 share listen) (c0 :: cs)).durationSet = false
    ∧ (addAll (mk0 share listen) (c0 :: cs)).mStartOffset = 0
    ∧ (addAll (mk0 share listen) (c0 :: cs)).mDuration =
        (cs.map childEnd).foldl max (childEnd c0)
    ∧ (addAll (mk0 share listen) (c0 :: cs)).mLastEnd =
        (addAll (mk0 share listen) (c0 :: cs)).mDuration := by
  have hfirst := addAnimation_first (mk0 share listen) c0 (mk0_durationSet share listen)
    (mk0_mAnimations share listen)
  have hf' : ((mk0 share listen).addAnimation c0).durationSet = false := by
    rw [hfirst]; exact mk0_durationSet share listen
  have hS' : ((mk0 share listen).addAnimation c0).mStartOffset = 0 := by
    rw [hfirst]; exact mk0_mStartOffset share listen
  have hne' : ((mk0 share listen).addAnimation c0).mAnimations ≠ [] := by
    rw [hfirst]; simp
  have hD0 : ((mk0 share listen).addAnimation c0).mDuration = childEnd c0 := by
    rw [hfirst]
  have hL' : ((mk0 share listen).addAnimation c0).mLastEnd =
      ((mk0 share listen).addAnimation c0).mDuration := by
    rw [hfirst]
    show (mk0 share listen).mStartOffset + childEnd c0 = childEnd c0
    rw [mk0_mStartOffset, Int.zero_add]
  have hrec := addAll_timing cs ((mk0 share listen).addAnimation c0) hf' hS' hne' hL'
  rw [addAll_cons]
  refine ⟨?_, ?_, ?_, hrec.2⟩
  · rw [addAll_durationSet]; exact hf'
  · rw [addAll_mStartOffset]; exact hS'
  · rw [hrec.1, hD0]

/-- C3 counterexample: set the set's start offset to 5, then add one child
with start offset 0 and duration 10.  The children's maximum end is 10, so
the claim demands `mDuration = 10 - 5 = 5`; the code stores 10. -/
theorem C3_counterexample :
    (((mk0 true true).setStartOffset 5).addAnimation (testChild 0 10 0)).durationSet = false
    ∧ (((mk0 true true).setStartOffset 5).addAnimation (testChild 0 10 0)).mDuration = 10
    ∧ (((mk0 true true).setStartOffset 5).addAnimation (testChild 0 10 0)).mStartOffset = 5
    ∧ ((((mk0 true true).setStartOffset 5).addAnimation (testChild 0 10 0)).mAnimations.map
        childEnd) = [10]
    ∧ (10 : Int) ≠ 10 - 5 := by
  refine ⟨rfl, rfl, rfl, rfl, by decide⟩

/-- C8 (amended): if the set's duration was explicitly set, `addAnimation`
leaves the duration field unchanged and assigns
`mLastEnd = mStartOffset + mDuration`; both timing fields are therefore
unchanged exactly when `mLastEnd` already equals `mStartOffset + mDuration`
(which a later `setStartOffset` can break — see the counterexample). -/
theorem C8_addAnimation_explicit_duration (st : AnimationSet) (a : Child)
    (h : st.durationSet = true) :
    (st.addAnimation a).mDuration = st.mDuration
    ∧ (st.addAnimation a).mLastEnd = st.mStartOffset + st.mDuration
    ∧ (st.mLastEnd = st.mStartOffset + st.mDuration →
        (st.addAnimation a).mLastEnd = st.mLastEnd) := by
  rw [addAnimation_of_durationSet st a h]
  exact ⟨rfl, rfl, fun hL => hL.symm⟩

/-- Witness for C8: a fresh set with `setDuration(10)`; adding a child keeps
`mDuration = 10` and `mLastEnd = 0 + 10`. -/
theorem C8_witness :
    (((mk0 true true).setDuration 10).addAnimation (testChild 0 3 0)).mDuration =
        ((mk0 true true).setDuration 10).mDuration
    ∧ (((mk0 true true).setDuration 10).addAnimation (testChild 0 3 0)).mLastEnd =
        ((mk0 true true).setDuration 10).mStartOffset + ((mk0 true true).setDuration 10).mDuration
    ∧ (((mk0 true true).setDuration 10).mLastEnd =
          ((mk0 true true).setDuration 10).mStartOffset +
            ((mk0 true true).setDuration 10).mDuration →
        (((mk0 true true).setDuration 10).addAnimation (testChild 0 3 0)).mLastEnd =
          ((mk0 true true).setDuration 10).mLastEnd) :=
  C8_addAnimation_explicit_duration ((mk0 true true).setDuration 10) (testChild 0 3 0) rfl

/-- C8 counterexample: `setDuration(10)` then `setStartOffset(5)` gives a
state with the duration flag set and `mLastEnd = 10`; `addAnimation` then
changes `mLastEnd` to `5 + 10 = 15`, so the timing state is not left
unchanged. -/
theorem C8_counterexample :
    (((mk0 true true).setDuration 10).setStartOffset 5).durationSet = true
    ∧ (((mk0 true true).setDuration 10).setStartOffset 5).mLastEnd = 10
    ∧ ((((mk0 true true).setDuration 10).setStartOffset 5).addAnimation
        (testChild 0 3 0)).mLastEnd = 15
    ∧ (15 : Int) ≠ 10 := by
  refine ⟨rfl, rfl, rfl, by decide⟩

end AnimationSet

namespace AnimationSet

/-- A left fold of `min` never exceeds its initial value. -/
theorem foldl_min_le_init (l : List Int) : ∀ b : Int, l.foldl min b ≤ b := by
  induction l with
  | nil => intro b; exact le_refl b
  | cons c l ih =>
    intro b
    exact le_trans (ih (min b c)) (min_le_left b c)

/-- A left fold of `min` never exceeds any list element. -/
theorem foldl_min_le_mem (l : List Int) : ∀ (b a : Int), a ∈ l → l.foldl min b ≤ a := by
  induction l with
  | nil => intro b a ha; simp at ha
  | cons c l ih =>
    intro b a ha
    rcases List.mem_cons.mp ha with rfl | ha
    · exact le_trans (foldl_min_le_init l (min b a)) (min_le_right b a)
    · exact ih (min b c) a ha

/-- A left fold of `min` is attained: at the initial value or at an element. -/
theorem foldl_min_attained (l : List Int) :
    ∀ b : Int, l.foldl min b = b ∨ ∃ a ∈ l, l.foldl min b = a := by
  induction l with
  | nil => intro b; exact Or.inl rfl
  | cons c l ih =>
    intro b
    rcases ih (min b c) with h | ⟨a, ha, hEq⟩
    · rcases min_choice b c with hbc | hbc
      · exact Or.inl (by rw [List.foldl_cons, h, hbc])
      · exact Or.inr ⟨c, List.mem_cons_self c l, by rw [List.foldl_cons, h, hbc]⟩
    · exact Or.inr ⟨a, List.mem_cons_of_mem c ha, hEq⟩

/-- `getStartTime()` as a fold of `min` over the children's start times. -/
theorem getStartTime_eq (st : AnimationSet) :
    st.getStartTime = (st.mAnimations.map Child.getStartTime).foldl min 100000 := by
  rw [getStartTime, List.foldl_map]
  simp [smin_eq_min]

/-- C6 (amended): `getStartTime()` returns the minimum of the sentinel 100000
and the children's start times: 100000 on an empty set, a lower bound on
every child's start time, and always attained at the sentinel or at some
child.  It is the true minimum of the children only when some child starts
at or before 100000 (see the counterexample). -/
theorem C6_getStartTime_sentinel_min (st : AnimationSet) :
    (st.mAnimations = [] → st.getStartTime = 100000)
    ∧ st.getStartTime ≤ 100000
    ∧ (∀ a ∈ st.mAnimations, st.getStartTime ≤ a.getStartTime)
    ∧ (st.getStartTime = 100000 ∨ ∃ a ∈ st.mAnimations, st.getStartTime = a.getStartTime) := by
  refine ⟨?_, ?_, ?_, ?_⟩
  · intro h; rw [getStartTime_eq, h]; rfl
  · rw [getStartTime_eq]; exact foldl_min_le_init _ _
  · intro a ha
    rw [getStartTime_eq]
    exact foldl_min_le_mem _ _ _ (List.mem_map_of_mem Child.getStartTime ha)
  · rw [getStartTime_eq]
    rcases foldl_min_attained (st.mAnimations.map Child.getStartTime) 100000 with h | ⟨x, hx, hEq⟩
    · exact Or.inl h
    · obtain ⟨c, hc, rfl⟩ := List.mem_map.mp hx
      exact Or.inr ⟨c, hc, hEq⟩

/-- C6 counterexample: a set with one child whose start time is 200000.
The claim demands the true minimum 200000, but `getStartTime()` returns the
sentinel 100000. -/
theorem C6_counterexample :
    ((mk0 true true).addAnimation (testChild 0 10 200000)).getStartTime = 100000
    ∧ (((mk0 true true).addAnimation (testChild 0 10 200000)).mAnimations.map
        Child.getStartTime) = [200000]
    ∧ (100000 : Int) ≠ 200000 := by
  refine ⟨rfl, rfl, by decide⟩

/-- Witness for C6 at a one-child set with start time 50. -/
theorem C6_witness :
    (((mk0 true true).addAnimation (testChild 0 10 50)).mAnimations = [] →
      ((mk0 true true).addAnimation (testChild 0 10 50)).getStartTime = 100000)
    ∧ ((mk0 true true).addAnimation (testChild 0 10 50)).getStartTime ≤ 100000
    ∧ (∀ a ∈ ((mk0 true true).addAnimation (testChild 0 10 50)).mAnimations,
        ((mk0 true true).addAnimation (testChild 0 10 50)).getStartTime ≤ a.getStartTime)
    ∧ (((mk0 true true).addAnimation (testChild 0 10 50)).getStartTime = 100000
       ∨ ∃ a ∈ ((mk0 true true).addAnimation (testChild 0 10 50)).mAnimations,
          ((mk0 true true).addAnimation (testChild 0 10 50)).getStartTime = a.getStartTime) :=
  C6_getStartTime_sentinel_min ((mk0 true true).addAnimation (testChild 0 10 50))

/-- C7 (amended): `setStartTime(t)` propagates unconditionally to every
child — afterwards every child's start time equals `t` (and so does the
set's own) — but `reset()` only clears the set's own cached started/ended
state and leaves the children untouched (`restoreChildrenStartOffset` is a
no-op in this version). -/
theorem C7_setStartTime_fanout (st : AnimationSet) (ts : Int) :
    (∀ a ∈ (st.setStartTime ts).mAnimations, a.mStartTime = ts)
    ∧ (st.setStartTime ts).mStartTime = ts
    ∧ st.reset.mAnimations = st.mAnimations
    ∧ st.reset.mStarted = false
    ∧ st.reset.mEnded = false := by
  refine ⟨?_, rfl, rfl, rfl, rfl⟩
  intro a ha
  simp only [setStartTime, List.mem_map] at ha
  obtain ⟨c, _, rfl⟩ := ha
  rfl

/-- C7 counterexample: a set with one child whose cached started flag is set.
After `reset()` on the set, the child still has its started flag set,
whereas a child that had been reset would have it cleared — `reset()` does
not fan out to the children. -/
theorem C7_counterexample :
    ((((mk0 true true).addAnimation startedChild).reset).mAnimations.getD 0
        Child.default).mStarted = true
    ∧ (Child.reset ((((mk0 true true).addAnimation startedChild).reset).mAnimations.getD 0
        Child.default)).mStarted = false :=
  ⟨rfl, rfl⟩

/-- Witness for C7 at a one-child set and start time 42. -/
theorem C7_witness :
    (∀ a ∈ (((mk0 true true).addAnimation (testChild 0 10 0)).setStartTime 42).mAnimations,
        a.mStartTime = 42)
    ∧ (((mk0 true true).addAnimation (testChild 0 10 0)).setStartTime 42).mStartTime = 42
    ∧ ((mk0 true true).addAnimation (testChild 0 10 0)).reset.mAnimations =
        ((mk0 true true).addAnimation (testChild 0 10 0)).mAnimations
    ∧ ((mk0 true true).addAnimation (testChild 0 10 0)).reset.mStarted = false
    ∧ ((mk0 true true).addAnimation (testChild 0 10 0)).reset.mEnded = false :=
  C7_setStartTime_fanout ((mk0 true true).addAnimation (testChild 0 10 0)) 42

/-- Witness for C4 at a one-child set and timestamp 7. -/
theorem C4_witness :
    ((((mk0 true true).addAnimation (timedChild 0 20)).getTransformation 7).more = true ↔
      ∃ a ∈ ((mk0 true true).addAnimation (timedChild 0 20)).mAnimations,
        (a.getTransformation 7 ((mk0 true true).addAnimation (timedChild 0 20)).mScaleFactor).1 =
          true)
    ∧ ((((mk0 true true).addAnimation (timedChild 0 20)).getTransformation 7).state.mEnded = true ↔
      ∀ a ∈ ((mk0 true true).addAnimation (timedChild 0 20)).mAnimations, a.hasEndedAt 7 = true)
    ∧ (((mk0 true true).addAnimation (timedChild 0 20)).mAnimations = [] →
      (((mk0 true true).addAnimation (timedChild 0 20)).getTransformation 7).state.mEnded = true)
    ∧ (∀ l : List Child, ((mk0 true true).addAnimation (timedChild 0 20)).mAnimations.Perm l →
        (({ (mk0 true true).addAnimation (timedChild 0 20) with
            mAnimations := l } : AnimationSet).getTransformation 7).more =
          (((mk0 true true).addAnimation (timedChild 0 20)).getTransformation 7).more
        ∧ (({ (mk0 true true).addAnimation (timedChild 0 20) with
            mAnimations := l } : AnimationSet).getTransformation 7).state.mEnded =
          (((mk0 true true).addAnimation (timedChild 0 20)).getTransformation 7).state.mEnded) :=
  C4_more_ended_aggregation ((mk0 true true).addAnimation (timedChild 0 20)) 7

/-- Once the set's cached started flag is true, no later `getTransformation`
call in a sequence ever fires the start callback again. -/
theorem runSeq_no_start (cts : List Int) :
    ∀ st : AnimationSet, st.mStarted = true →
      ∀ k, Event.animStart ∉ (runSeq st cts).getD k [] := by
  induction cts with
  | nil => intro st h k; simp [runSeq]
  | cons c rest ih =>
    intro st h k
    cases k with
    | zero =>
      simp only [runSeq, List.getD_cons_zero]
      rw [mem_events_start]
      simp [h]
    | succ j =>
      simp only [runSeq, List.getD_cons_succ]
      exact ih (st.getTransformation c).state
        (by simp [getTransformation_state_mStarted, h]) j

/-- Across a sequence of `getTransformation` calls, the end callback fires at
call `k` exactly when the aggregated `ended` value at call `k` differs from
the cached ended flag, which at call `k` holds the initial cached value for
`k = 0` and the previous call's aggregated value otherwise. -/
theorem runSeq_end_spec (cts : List Int) :
    ∀ st : AnimationSet, st.hasListener = true → ∀ k, k < cts.length →
      (Event.animEnd ∈ (runSeq st cts).getD k [] ↔
        aggEnded st.mAnimations (cts.getD k 0) ≠
          (if k = 0 then st.mEnded else aggEnded st.mAnimations (cts.getD (k - 1) 0))) := by
  induction cts with
  | nil => intro st _ k hk; simp at hk
  | cons c rest ih =>
    intro st hl k hk
    cases k with
    | zero =>
      simp only [runSeq, List.getD_cons_zero, if_pos rfl]
      rw [mem_events_end]
      simp [hl]
    | succ j =>
      simp only [runSeq, List.getD_cons_succ]
      have hl' : (st.getTransformation c).state.hasListener = true := by
        rw [getTransformation_state_hasListener]; exact hl
      have hrec := ih (st.getTransformation c).state hl' j (Nat.lt_of_succ_lt_succ hk)
      rw [getTransformation_state_mAnimations] at hrec
      rw [hrec]
      cases j with
      | zero => simp [getTransformation_state_mEnded]
      | succ i => simp

/-- Across a sequence of `getTransformation` calls starting with the cached
started flag false, the start callback fires at call `k` exactly when the
aggregated `started` value is true at call `k` and false at every earlier
call — i.e. exactly once, at the first call whose aggregated `started` is
true. -/
theorem runSeq_start_spec (cts : List Int) :
    ∀ st : AnimationSet, st.hasListener = true → st.mStarted = false → ∀ k, k < cts.length →
      (Event.animStart ∈ (runSeq st cts).getD k [] ↔
        (aggStarted st.mAnimations (cts.getD k 0) = true ∧
         ∀ j, j < k → aggStarted st.mAnimations (cts.getD j 0) = false)) := by
  induction cts with
  | nil => intro st _ _ k hk; simp at hk
  | cons c rest ih =>
    intro st hl h0 k hk
    cases k with
    | zero =>
      simp only [runSeq, List.getD_cons_zero]
      rw [mem_events_start]
      simp [hl, h0]
    | succ j =>
      simp only [runSeq, List.getD_cons_succ]
      have hl' : (st.getTransformation c).state.hasListener = true := by
        rw [getTransformation_state_hasListener]; exact hl
      cases hs : aggStarted st.mAnimations c with
      | false =>
        have h0' : (st.getTransformation c).state.mStarted = false := by
          rw [getTransformation_state_mStarted, h0, hs]; rfl
        have hrec := ih (st.getTransformation c).state hl' h0' j (Nat.lt_of_succ_lt_succ hk)
        rw [getTransformation_state_mAnimations] at hrec
        rw [hrec]
        constructor
        · rintro ⟨hagg, hprev⟩
          refine ⟨hagg, ?_⟩
          intro m hm
          cases m with
          | zero => simpa using hs
          | succ i => exact hprev i (Nat.lt_of_succ_lt_succ hm)
        · rintro ⟨hagg, hprev⟩
          exact ⟨hagg, fun i hi => hprev (i + 1) (Nat.succ_lt_succ hi)⟩
      | true =>
        have h1 : (st.getTransformation c).state.mStarted = true := by
          rw [getTransformation_state_mStarted, hs]; simp
        have hno := runSeq_no_start rest (st.getTransformation c).state h1 j
        refine ⟨fun hmem => absurd hmem hno, ?_⟩
        rintro ⟨hagg, hprev⟩
        exact absurd (hprev 0 (Nat.succ_pos j)) (by simp [hs])

/-- C5: across any sequence of `getTransformation` calls on the same set with
a listener installed and the cached started flag initially false, the start
callback fires exactly once, at the first call whose aggregated `started`
value is true (it fires at call `k` iff `started` aggregates to true there
and at no earlier call); the end callback fires at every call where the
aggregated `ended` value differs from the cached ended flag — the initial
cached value at call 0 and, since the flag is updated to the new value on
every transition, the previous call's aggregated value afterwards — so it
fires on every transition in either direction. -/
theorem C5_listener_transitions (st : AnimationSet) (cts : List Int)
    (h1 : st.hasListener = true) (h0 : st.mStarted = false) (k : Nat) (hk : k < cts.length) :
    (Event.animStart ∈ (runSeq st cts).getD k [] ↔
      (aggStarted st.mAnimations (cts.getD k 0) = true ∧
       ∀ j, j < k → aggStarted st.mAnimations (cts.getD j 0) = false))
    ∧ (Event.animEnd ∈ (runSeq st cts).getD k [] ↔
      aggEnded st.mAnimations (cts.getD k 0) ≠
        (if k = 0 then st.mEnded else aggEnded st.mAnimations (cts.getD (k - 1) 0))) :=
  ⟨runSeq_start_spec cts st h1 h0 k hk, runSeq_end_spec cts st h1 k hk⟩

/-- Witness for C5: a set with one child that starts at 10 and ends at 20,
sampled at times 0 and 15, second call. -/
theorem C5_witness :
    (Event.animStart ∈
        (runSeq ((mk0 true true).addAnimation (timedChild 10 20)) [0, 15]).getD 1 [] ↔
      (aggStarted ((mk0 true true).addAnimation (timedChild 10 20)).mAnimations
          (([0, 15] : List Int).getD 1 0) = true ∧
       ∀ j, j < 1 → aggStarted ((mk0 true true).addAnimation (timedChild 10 20)).mAnimations
          (([0, 15] : List Int).getD j 0) = false))
    ∧ (Event.animEnd ∈
        (runSeq ((mk0 true true).addAnimation (timedChild 10 20)) [0, 15]).getD 1 [] ↔
      aggEnded ((mk0 true true).addAnimation (timedChild 10 20)).mAnimations
          (([0, 15] : List Int).getD 1 0) ≠
        (if (1 : Nat) = 0 then ((mk0 true true).addAnimation (timedChild 10 20)).mEnded
         else aggEnded ((mk0 true true).addAnimation (timedChild 10 20)).mAnimations
          (([0, 15] : List Int).getD 0 0))) :=
  C5_listener_transitions ((mk0 true true).addAnimation (timedChild 10 20)) [0, 15]
    rfl rfl 1 (by decide)

/-- C10: on a set with no children and a listener, at any timestamp,
`getTransformation` returns false, leaves the output transformation cleared
(the identity), and — because `ended` is vacuously true — when the cached
ended flag is false the call fires the end callback even though no child
animation ever ran. -/
theorem C10_empty_set_end_fires (st : AnimationSet) (ct : Int)
    (h1 : st.mAnimations = []) (h2 : st.mEnded = false) (h3 : st.hasListener = true) :
    (st.getTransformation ct).more = false
    ∧ (st.getTransformation ct).t = Transformation.cleared
    ∧ (st.getTransformation ct).events = [Event.animEnd] := by
  simp [getTransformation, h1, h2, h3, transLoop]

/-- Witness for C10: a freshly constructed empty set at time 0. -/
theorem C10_witness :
    ((mk0 true true).getTransformation 0).more = false
    ∧ ((mk0 true true).getTransformation 0).t = Transformation.cleared
    ∧ ((mk0 true true).getTransformation 0).events = [Event.animEnd] :=
  C10_empty_set_end_fires (mk0 true true) 0 rfl rfl rfl

end AnimationSet

end SOUI
